import Mathlib

/-!
Shallow embedding of the AniFind fingerprint search system
(perceptual-hash indexing and query engine) together with proofs
about its specified behaviour.

The definitions below are transcribed from the Python sources:
  * src/app/services/frame_search.py   (string-hash scan search)
  * src/app/services/image_search_service.py and src/main.py
                                       (64-bit binary FAISS search path)
  * src/searchPhash.py                 (concatenated-hash L2 search path)
  * src/createPhash.py, src/indexador.py, src/generate_data.py
                                       (ingestion pipelines)
  * src/app/services/frame_extractor.py (3-frames-per-second extractor)
-/

namespace AniFind

/-! ## Bit-level Hamming distance

`hammingBits w a b` counts the differing bits among the low `w` bits of
`a` and `b`.  This is the distance computed by the FAISS binary index
(`IndexBinaryFlat`) used in `src/main.py` and
`src/app/services/image_search_service.py` (w = 64), and the squared L2
distance over the 0/1 float vectors of `src/searchPhash.py` (w = 192),
since for 0/1 coordinates the squared difference per coordinate is the
XOR of the bits. -/

def hammingBits (w : ℕ) (a b : ℕ) : ℕ :=
  ((List.range w).map (fun i => (Nat.xor a b >>> i) % 2)).sum

theorem hammingBits_self (w a : ℕ) : hammingBits w a a = 0 := by
  unfold hammingBits
  have hx : Nat.xor a a = 0 := Nat.xor_self a
  rw [hx]
  induction w with
  | zero => rfl
  | succ n ih => rw [List.range_succ]; simp_all

theorem hammingBits_le (w a b : ℕ) : hammingBits w a b ≤ w := by
  unfold hammingBits
  calc ((List.range w).map (fun i => (Nat.xor a b >>> i) % 2)).sum
      ≤ ((List.range w).map (fun i => (Nat.xor a b >>> i) % 2)).length • 1 := by
        apply List.sum_le_card_nsmul
        intro x hx
        simp only [List.mem_map] at hx
        obtain ⟨i, _, rfl⟩ := hx
        exact Nat.le_of_lt_succ (Nat.mod_lt _ (by norm_num))
    _ = w := by simp

/-! ## FrameSearchService (src/app/services/frame_search.py)

`_hamming_distance` compares two hash *strings* character by character;
unequal lengths yield the fixed maximal distance 64.  `similarity_score`
of a match is `1 - distance / 64`.  `search_similar_frame` scans the
stored frames in order and returns the first one whose distance is within
the threshold (early exit), or no match. -/

def hamming_distance (h1 h2 : List Char) : ℕ :=
  if h1.length ≠ h2.length then 64
  else ((h1.zip h2).filter (fun p => p.1 ≠ p.2)).length

def similarity_score (d : ℕ) : ℚ := 1 - (d : ℚ) / 64

/-- First stored frame (id, hash) whose distance to the query is within
the threshold, as `(id, distance)`; the nested extraction/frame loops of
the source are flattened into one stored list in scan order. -/
def search_first_match (db : List (ℕ × List Char)) (q : List Char)
    (threshold : ℕ) : Option (ℕ × ℕ) :=
  db.findSome? (fun e =>
    if hamming_distance q e.2 ≤ threshold then
      some (e.1, hamming_distance q e.2)
    else none)

theorem zip_self_filter_ne (a : List Char) :
    ((a.zip a).filter (fun p => p.1 ≠ p.2)) = [] := by
  induction a with
  | nil => rfl
  | cons x l ih =>
    rw [List.zip_cons_cons, List.filter_cons, if_neg (by simp)]
    exact ih

theorem hamming_distance_self (a : List Char) : hamming_distance a a = 0 := by
  unfold hamming_distance
  rw [if_neg (by simp), zip_self_filter_ne]
  rfl

theorem hamming_distance_le_of_len (q t : List Char) (n : ℕ)
    (hq : q.length = n) (ht : t.length = n) : hamming_distance q t ≤ n := by
  unfold hamming_distance
  rw [if_neg (by rw [hq, ht]; simp)]
  calc ((q.zip t).filter (fun p => p.1 ≠ p.2)).length
      ≤ (q.zip t).length := List.length_filter_le _ _
    _ = q.length ⊓ t.length := List.length_zip _ _
    _ ≤ n := by rw [hq, ht]; simp

theorem similarity_score_ge_of_le16 (d : ℕ) (h : d ≤ 16) :
    3 / 4 ≤ similarity_score d := by
  unfold similarity_score
  have : (d : ℚ) ≤ 16 := by exact_mod_cast h
  linarith

/-! ## Similarity formulas of the two FAISS query paths -/

/-- Similarity reported by `src/searchPhash.py` line 124:
`(1 - dist / 64) * 100`, where `dist` is the squared L2 distance over the
192-dimensional concatenated hash vector. -/
def searchphash_similarity (d : ℚ) : ℚ := (1 - d / 64) * 100

/-- Similarity reported by `src/main.py` line 179 and
`src/app/services/image_search_service.py` line 178:
`100 * (64 - hamming_dist) / 64`. -/
def similarity_percentage (d : ℚ) : ℚ := 100 * (64 - d) / 64

/-- C9: for every fingerprint, the Hamming distance to itself is 0 (both
for the character-wise string distance of FrameSearchService and for the
64-bit binary distance of the FAISS path), and the similarity reported
for a self-match (distance 0) is 100 in both query paths. -/
theorem C9_self_distance_and_similarity (a : List Char) (v : ℕ) :
    hamming_distance a a = 0 ∧
    hammingBits 64 v v = 0 ∧
    searchphash_similarity 0 = 100 ∧
    similarity_percentage (hammingBits 64 v v) = 100 := by
  refine ⟨hamming_distance_self a, hammingBits_self 64 v, by norm_num [searchphash_similarity], ?_⟩
  rw [hammingBits_self 64 v]
  norm_num [similarity_percentage]

/-- C10: when the query hash is the 16-hex-character string produced by
`_calculate_hashes`, a stored hash of equal length is at character
distance at most 16, so every match carries `similarity_score ≥ 0.75`;
a score below 0.75 forces unequal lengths, distance exactly 64 and score
0.  Moreover every match returned by the scan search over a store of
16-character hashes scores at least 0.75. -/
theorem C10_similarity_bounds (q t : List Char) (threshold : ℕ)
    (hq : q.length = 16) :
    (t.length = 16 → hamming_distance q t ≤ 16 ∧
      3 / 4 ≤ similarity_score (hamming_distance q t)) ∧
    (similarity_score (hamming_distance q t) < 3 / 4 →
      t.length ≠ 16 ∧ hamming_distance q t = 64 ∧
      similarity_score (hamming_distance q t) = 0) ∧
    (∀ db : List (ℕ × List Char), (∀ e ∈ db, e.2.length = 16) →
      ∀ i d, search_first_match db q threshold = some (i, d) →
        3 / 4 ≤ similarity_score d) := by
  refine ⟨?_, ?_, ?_⟩
  · intro ht
    have hle := hamming_distance_le_of_len q t 16 hq ht
    exact ⟨hle, similarity_score_ge_of_le16 _ hle⟩
  · intro hlt
    have hne : t.length ≠ 16 := by
      intro ht
      have hle := hamming_distance_le_of_len q t 16 hq ht
      exact absurd (similarity_score_ge_of_le16 _ hle) (not_le.mpr hlt)
    have hd : hamming_distance q t = 64 := by
      unfold hamming_distance
      rw [if_pos (by rw [hq]; exact fun h => hne h.symm)]
    refine ⟨hne, hd, ?_⟩
    rw [hd]; norm_num [similarity_score]
  · intro db hdb i d hfind
    obtain ⟨e, he, hsome⟩ := List.exists_of_findSome?_eq_some hfind
    by_cases hcond : hamming_distance q e.2 ≤ threshold
    · rw [if_pos hcond] at hsome
      have hd : d = hamming_distance q e.2 := by
        have := Option.some.inj hsome
        exact (congrArg Prod.snd this).symm
      have hle := hamming_distance_le_of_len q e.2 16 hq (hdb e he)
      rw [hd]
      exact similarity_score_ge_of_le16 _ hle
    · rw [if_neg hcond] at hsome
      exact absurd hsome (by simp)

/-- Concrete instantiation of `C10_similarity_bounds`. -/
theorem C10_similarity_bounds_witness :
    (List.replicate 16 'a').length = 16 ∧
    ((List.replicate 16 'a').length = 16 →
      hamming_distance (List.replicate 16 'a') (List.replicate 16 'a') ≤ 16 ∧
      3 / 4 ≤ similarity_score
        (hamming_distance (List.replicate 16 'a') (List.replicate 16 'a'))) := by
  have h := C10_similarity_bounds (List.replicate 16 'a') (List.replicate 16 'a')
    5 (by decide)
  exact ⟨by decide, h.1⟩

/-! ## Exact k-nearest-neighbour selection (binary FAISS path)

`src/main.py` and `src/app/services/image_search_service.py` store each
64-bit perceptual hash in a `faiss.IndexBinaryFlat` wrapped in an
`IndexBinaryIDMap` and call `index.search(query, k)`.  The library is not
part of this repository; its exact Hamming scan is modelled from the
spec: an exact linear scan returning the k stored entries of smallest
Hamming distance in ascending order (ties keeping corpus order).  When
the corpus holds fewer than k entries the library pads the result rows
to k columns with label -1 and a maximal sentinel distance. -/

def distLE {α : Type} (key : α → ℕ) (a b : α) : Prop := key a ≤ key b

instance {α : Type} (key : α → ℕ) : DecidableRel (distLE key) :=
  fun a b => Nat.decLe (key a) (key b)

instance {α : Type} (key : α → ℕ) : IsTotal α (distLE key) :=
  ⟨fun a b => Nat.le_total (key a) (key b)⟩

instance {α : Type} (key : α → ℕ) : IsTrans α (distLE key) :=
  ⟨fun _ _ _ => Nat.le_trans⟩

/-- Corpus sorted by distance to the query (stable, so ties keep corpus
insertion order). -/
def knnSorted {α : Type} (key : α → ℕ) (db : List α) : List α :=
  db.insertionSort (distLE key)

/-- The k nearest stored entries, ascending by distance. -/
def knnTake {α : Type} (key : α → ℕ) (db : List α) (k : ℕ) : List α :=
  (knnSorted key db).take k

/-- Sentinel distance of an unfilled result slot (the library initialises
its result heap with the maximal 32-bit distance). -/
def PAD_DIST : ℕ := 2147483647

/-- Hamming distance of a stored `(id, fingerprint)` entry to the query. -/
def binDist (q : ℕ) (e : ℤ × ℕ) : ℕ := hammingBits 64 q e.2

/-- Result rows `(id, distance)` of `index.search(query, k)` on the
binary index: the k nearest entries ascending, padded to k rows with
`(-1, PAD_DIST)` when the corpus is smaller than k. -/
def faissBinarySearch (db : List (ℤ × ℕ)) (q : ℕ) (k : ℕ) : List (ℤ × ℕ) :=
  (knnTake (binDist q) db k).map (fun e => (e.1, binDist q e)) ++
    List.replicate (k - db.length) (-1, PAD_DIST)

/-- One formatted result of `search_similar_frame` in `src/main.py`
(lines 171-186): id, Hamming distance, similarity percentage, and the
metadata found for the id (`metadata.get(frame_id, empty)`). -/
structure MainResult where
  id : ℤ
  distance : ℕ
  similarity : ℚ
  metadata : Option String
deriving DecidableEq, Repr

/-- Function `search_similar_frame` of `src/main.py` lines 143-200: search the
FAISS index, then format one result per row of `I[0]` for
`i in range(min(k, len(I[0])))`.  The variant in
`src/app/services/image_search_service.py` lines 170-187 iterates
`for i in range(k): if i < len(I[0])`, which yields the same rows. -/
def search_similar_frame (db : List (ℤ × ℕ)) (meta : List (ℤ × String))
    (q : ℕ) (k : ℕ) : List MainResult :=
  ((faissBinarySearch db q k).take
      (min k (faissBinarySearch db q k).length)).map (fun r =>
    { id := r.1, distance := r.2,
      similarity := similarity_percentage (r.2 : ℚ),
      metadata := meta.lookup r.1 })

theorem length_faissBinarySearch (db : List (ℤ × ℕ)) (q k : ℕ) :
    (faissBinarySearch db q k).length = k := by
  unfold faissBinarySearch knnTake knnSorted
  rw [List.length_append, List.length_map, List.length_take,
    List.length_insertionSort, List.length_replicate]
  omega

theorem binDist_le (q : ℕ) (e : ℤ × ℕ) : binDist q e ≤ 64 :=
  hammingBits_le 64 q e.2

theorem sorted_knnTake {α : Type} (key : α → ℕ) (db : List α) (k : ℕ) :
    List.Sorted (fun a b => key a ≤ key b) (knnTake key db k) :=
  ((List.sorted_insertionSort (distLE key) db).sublist
    (List.take_sublist k _))

/-- Selection soundness: an entry of the corpus strictly closer to the
query than some returned entry is itself returned. -/
theorem knnTake_no_omission {α : Type} (key : α → ℕ) (db : List α) (k : ℕ)
    (e : α) (he : e ∈ db) (r : α) (hr : r ∈ knnTake key db k)
    (hlt : key e < key r) : e ∈ knnTake key db k := by
  have hmem : e ∈ knnSorted key db := by
    unfold knnSorted
    exact (List.mem_insertionSort (distLE key)).mpr he
  have hsplit := List.take_append_drop k (knnSorted key db)
  have hpw : List.Pairwise (distLE key)
      (List.take k (knnSorted key db) ++ List.drop k (knnSorted key db)) := by
    rw [hsplit]
    exact List.sorted_insertionSort (distLE key) db
  rw [← hsplit] at hmem
  rcases List.mem_append.mp hmem with h | h
  · exact h
  · exfalso
    have := (List.pairwise_append.mp hpw).2.2 r hr e h
    exact absurd hlt (not_lt.mpr this)

theorem sorted_map_key {α : Type} (key : α → ℕ) (l : List α)
    (h : List.Sorted (fun a b => key a ≤ key b) l) :
    List.Sorted (· ≤ ·) (l.map key) :=
  List.Pairwise.map key (fun _ _ hab => hab) h

/-- The distance column of `search_similar_frame` is non-decreasing, the
result list always has exactly k rows, and every row past the corpus
size is a padding row with id -1. -/
theorem main_search_shape (db : List (ℤ × ℕ)) (meta : List (ℤ × String))
    (q k : ℕ) :
    List.Sorted (· ≤ ·) ((search_similar_frame db meta q k).map MainResult.distance) ∧
    (search_similar_frame db meta q k).length = k ∧
    ∀ r ∈ (search_similar_frame db meta q k).drop db.length, r.id = -1 := by
  have hIlen := length_faissBinarySearch db q k
  have hform : search_similar_frame db meta q k =
      ((knnTake (binDist q) db k).map (fun e =>
        { id := e.1, distance := binDist q e,
          similarity := similarity_percentage ((binDist q e : ℕ) : ℚ),
          metadata := meta.lookup e.1 })) ++
      List.replicate (k - db.length)
        { id := -1, distance := PAD_DIST,
          similarity := similarity_percentage ((PAD_DIST : ℕ) : ℚ),
          metadata := meta.lookup (-1) } := by
    have htake : List.take (min k (faissBinarySearch db q k).length)
        (faissBinarySearch db q k) = faissBinarySearch db q k := by
      apply List.take_of_length_le
      rw [hIlen]
      simp
    unfold search_similar_frame
    rw [htake]
    unfold faissBinarySearch
    rw [List.map_append, List.map_map, List.map_replicate]
    rfl
  have hreal_len : ((knnTake (binDist q) db k).map (fun e =>
      ({ id := e.1, distance := binDist q e,
         similarity := similarity_percentage ((binDist q e : ℕ) : ℚ),
         metadata := meta.lookup e.1 } : MainResult))).length ≤ db.length := by
    rw [List.length_map]
    unfold knnTake knnSorted
    rw [List.length_take, List.length_insertionSort]
    omega
  refine ⟨?_, ?_, ?_⟩
  · rw [hform, List.map_append, List.map_map, List.map_replicate]
    apply List.pairwise_append.mpr
    refine ⟨?_, ?_, ?_⟩
    · have := sorted_map_key (binDist q) _ (sorted_knnTake (binDist q) db k)
      simpa [Function.comp] using this
    · rw [List.pairwise_replicate]
      right; exact le_refl _
    · intro a ha b hb
      obtain ⟨e, _, rfl⟩ := List.mem_map.mp ha
      rcases List.eq_of_mem_replicate hb with rfl
      show binDist q e ≤ PAD_DIST
      calc binDist q e ≤ 64 := binDist_le q e
        _ ≤ PAD_DIST := by norm_num [PAD_DIST]
  · rw [hform, List.length_append, List.length_map, List.length_replicate]
    unfold knnTake knnSorted
    rw [List.length_take, List.length_insertionSort]
    omega
  · intro r hr
    rw [hform, List.drop_append_eq_append_drop,
      List.drop_eq_nil_of_le hreal_len, List.nil_append] at hr
    have hmem := (List.drop_sublist _ _).subset hr
    rcases List.eq_of_mem_replicate hmem with rfl
    rfl

/-- C3 counterexample: `FrameSearchService.search_similar_frame` is not a
nearest-neighbour search.  With a query at distance 5 from the first
stored hash and distance 0 from the second, and threshold 5, the scan
returns the first hash (distance 5) and omits the strictly closer
second hash (distance 0), contradicting the claim that no stored entry
strictly closer than a returned entry is ever omitted. -/
theorem C3_counterexample :
    search_first_match
      [(0, List.replicate 5 'b' ++ List.replicate 11 'a'),
       (1, List.replicate 16 'a')]
      (List.replicate 16 'a') 5 = some (0, 5) ∧
    hamming_distance (List.replicate 16 'a') (List.replicate 16 'a') = 0 ∧
    (0 : ℕ) < 5 := by decide

/-- C3 (amended): the binary FAISS query path is an exact k-NN: its
result is ascending by distance, and a stored entry strictly closer
than some returned entry is itself returned; the FrameSearchService
scan path instead returns only the first within-threshold hash. -/
theorem C3_exact_knn_soundness (db : List (ℤ × ℕ)) (q k : ℕ) :
    List.Sorted (fun a b => binDist q a ≤ binDist q b) (knnTake (binDist q) db k) ∧
    ∀ e ∈ db, ∀ r ∈ knnTake (binDist q) db k,
      binDist q e < binDist q r → e ∈ knnTake (binDist q) db k :=
  ⟨sorted_knnTake _ db k,
   fun e he r hr hlt => knnTake_no_omission _ db k e he r hr hlt⟩

/-- Concrete instantiation of `C3_exact_knn_soundness`. -/
theorem C3_exact_knn_soundness_witness :
    ((1 : ℤ), 0) ∈ ([((0 : ℤ), 3), ((1 : ℤ), 0)] : List (ℤ × ℕ)) ∧
    ((1 : ℤ), 0) ∈ knnTake (binDist 0) [((0 : ℤ), 3), ((1 : ℤ), 0)] 2 :=
  ⟨by decide,
   (C3_exact_knn_soundness [((0 : ℤ), 3), ((1 : ℤ), 0)] 0 2).2
     ((1 : ℤ), 0) (by decide) ((0 : ℤ), 3) (by decide) (by decide)⟩

/-- C4 counterexample: requesting k = 2 results from a corpus of one
fingerprint returns 2 rows, not corpus-size 1: the FAISS result matrix
always has k columns, padded with label -1, and the
`min(k, len(I[0]))` guard in `src/main.py` never truncates them, so a
padding row with invalid id -1 reaches the output. -/
theorem C4_counterexample :
    (search_similar_frame [((5 : ℤ), 0)] [((5 : ℤ), "m")] 0 2).length = 2 ∧
    ([((5 : ℤ), 0)] : List (ℤ × ℕ)).length = 1 ∧
    ((search_similar_frame [((5 : ℤ), 0)] [((5 : ℤ), "m")] 0 2).get? 1).map
      MainResult.id = some (-1) := by decide

/-- C4 (amended): `search(q, k)` returns results with non-decreasing
distances and always exactly k rows; when k exceeds the corpus size the
rows past the corpus size are padding rows with id -1 (and empty
metadata), not real entries. -/
theorem C4_ordering_and_padding (db : List (ℤ × ℕ))
    (meta : List (ℤ × String)) (q k : ℕ) :
    List.Sorted (· ≤ ·) ((search_similar_frame db meta q k).map MainResult.distance) ∧
    (search_similar_frame db meta q k).length = k ∧
    ∀ r ∈ (search_similar_frame db meta q k).drop db.length, r.id = -1 :=
  main_search_shape db meta q k

/-- Concrete instantiation of `C4_ordering_and_padding`. -/
theorem C4_ordering_and_padding_witness :
    (⟨-1, PAD_DIST, similarity_percentage ((PAD_DIST : ℕ) : ℚ), none⟩ : MainResult).id = -1 := by
  have hmem : (⟨-1, PAD_DIST, similarity_percentage ((PAD_DIST : ℕ) : ℚ), none⟩ : MainResult) ∈
      (search_similar_frame [((5 : ℤ), 0)] [] 0 2).drop
        ([((5 : ℤ), 0)] : List (ℤ × ℕ)).length := by
    show _ ∈ (search_similar_frame [((5 : ℤ), 0)] [] 0 2).drop 1
    have h : (search_similar_frame [((5 : ℤ), 0)] [] 0 2).drop 1 =
        [⟨-1, PAD_DIST, similarity_percentage ((PAD_DIST : ℕ) : ℚ), none⟩] := rfl
    rw [h]
    exact List.mem_singleton.mpr rfl
  exact (C4_ordering_and_padding [((5 : ℤ), 0)] [] 0 2).2.2 _ hmem

/-! ## QueryEngine of src/searchPhash.py

`search` loads a `faiss.IndexFlatL2(192)` over the concatenated
phash/dhash/ahash bit vectors (0/1 floats), searches the configured
`TOP_K`, and formats every returned row; `top_result` is the rank-0 row.
For 0/1 coordinates the squared L2 distance equals the number of
differing bits among the 192 concatenated bits.  `config.Config` also
defines `MINIMUM_SIMILARITY` (default 75.0). -/

/-- One formatted row of `searchPhash.search` (lines 121-140): its rank,
the similarity `(1 - dist/64)*100`, and the metadata list entry selected
by Python list indexing `metadata[idx]` (negative indices address from
the end; out of range raises). -/
structure PhashResult where
  rank : ℕ
  similarity : ℚ
  meta : Option String
deriving DecidableEq, Repr

/-- Python list indexing `l[i]`: non-negative indices from the front,
negative indices from the end; `none` when the access would raise. -/
def pyGet {α : Type} (l : List α) (i : ℤ) : Option α :=
  if 0 ≤ i then l.get? i.toNat else l.get? (l.length - (-i).toNat)

/-- Result rows `(idx, distance)` of `index.search(query_vec, k)` on the
flat L2 index over the 192-bit concatenated vectors, the row id being
the position of the vector in the store; modelled from the spec as the
exact scan of the external library, padded to k rows when the corpus is
smaller. -/
def faissL2Search (db : List ℕ) (q : ℕ) (k : ℕ) : List (ℤ × ℕ) :=
  (knnTake (fun e => hammingBits 192 q e.2) ((List.range db.length).zip db) k).map
    (fun e => ((e.1 : ℤ), hammingBits 192 q e.2)) ++
  List.replicate (k - db.length) (-1, PAD_DIST)

/-- Output of `searchPhash.search` lines 117-178: the formatted rows in
rank order and the rank-0 row as `top_result`.  The configured
`MINIMUM_SIMILARITY` is passed in but — exactly as in the source — never
consulted. -/
structure PhashOutput where
  all_results : List PhashResult
  top_result : Option PhashResult
deriving DecidableEq, Repr

def searchPhash_search (minSim : ℚ) (db : List ℕ) (metas : List String)
    (q : ℕ) (k : ℕ) : PhashOutput :=
  let results := (faissL2Search db q k).enum.map (fun p =>
    { rank := p.1 + 1,
      similarity := searchphash_similarity ((p.2.2 : ℕ) : ℚ),
      meta := pyGet metas p.2.1 })
  { all_results := results, top_result := results.head? }

theorem length_faissL2Search (db : List ℕ) (q k : ℕ) :
    (faissL2Search db q k).length = k := by
  unfold faissL2Search knnTake knnSorted
  rw [List.length_append, List.length_map, List.length_take,
    List.length_insertionSort, List.length_replicate, List.length_zip,
    List.length_range]
  omega

set_option maxRecDepth 20000 in
/-- C1 counterexample: with `min_similarity = 90` and a corpus whose
single (hence best) candidate has similarity 79.6875 < 90, `search`
still returns one result and flags it `top_result`, instead of the
empty result list the claim requires.  The query differs from the
stored vector in 13 of the 192 concatenated bits, so the squared L2
distance is 13 and the similarity is `(1 - 13/64) * 100`. -/
theorem C1_counterexample :
    (searchPhash_search 90 [8191] ["m"] 0 1).all_results.length = 1 ∧
    ((searchPhash_search 90 [8191] ["m"] 0 1).top_result).map PhashResult.similarity
      = some (searchphash_similarity ((13 : ℕ) : ℚ)) ∧
    searchphash_similarity ((13 : ℕ) : ℚ) < 90 := by
  refine ⟨rfl, rfl, ?_⟩
  norm_num [searchphash_similarity]

/-- C1 (amended): `searchPhash.search` never consults the configured
minimum similarity: its output is the same for every threshold value,
and on a non-empty corpus it always returns a non-empty result list
(one row per requested rank) whose first row is the one flagged
`top_result`. -/
theorem C1_no_threshold_filter (minSim minSim' : ℚ) (db : List ℕ)
    (metas : List String) (q k : ℕ) :
    searchPhash_search minSim db metas q k = searchPhash_search minSim' db metas q k ∧
    (searchPhash_search minSim db metas q k).all_results.length = k ∧
    (searchPhash_search minSim db metas q k).top_result =
      (searchPhash_search minSim db metas q k).all_results.head? := by
  refine ⟨rfl, ?_, rfl⟩
  show ((faissL2Search db q k).enum.map _).length = k
  rw [List.length_map, List.enum_length, length_faissL2Search]

/-- C2 ingestion events: what each pipeline writes to durable storage,
in program order.  `persistFp u` is the fingerprint write covering unit
u, `persistMeta u` the metadata write covering u, `markDone u` the
checkpoint mark for u.  An interrupted run is a prefix of the event
list. -/
inductive IngestEvent
  | persistFp (u : String)
  | persistMeta (u : String)
  | markDone (u : String)
deriving DecidableEq, Repr

/-- Event order of `src/createPhash.py` `main` (lines 159-181): per
unit, `faiss.write_index` (fingerprints), then `pickle.dump` of the
metadata, then `mark_processed`. -/
def createPhash_events (units : List String) : List IngestEvent :=
  units.bind (fun u =>
    [IngestEvent.persistFp u, IngestEvent.persistMeta u, IngestEvent.markDone u])

/-- Event order of `src/indexador.py` `main` (lines 105-144): the loop
calls `mark_processed` for every unit while accumulating vectors in
memory; only after the loop are the index and the metadata written. -/
def indexador_events (units : List String) : List IngestEvent :=
  units.map IngestEvent.markDone ++ units.map IngestEvent.persistFp ++
    units.map IngestEvent.persistMeta

def marked (evs : List IngestEvent) (u : String) : Prop :=
  IngestEvent.markDone u ∈ evs

def persisted (evs : List IngestEvent) (u : String) : Prop :=
  IngestEvent.persistFp u ∈ evs ∧ IngestEvent.persistMeta u ∈ evs

instance (evs : List IngestEvent) (u : String) : Decidable (marked evs u) := by
  unfold marked; infer_instance

instance (evs : List IngestEvent) (u : String) : Decidable (persisted evs u) := by
  unfold persisted; infer_instance

/-- C2 counterexample: in the `indexador.py` pipeline, after the first
event of a one-unit run (a genuine interruption point, since the full
run has more events) the unit is already marked done although neither
its fingerprints nor its metadata have been persisted. -/
theorem C2_counterexample :
    marked ((indexador_events ["ep1"]).take 1) "ep1" ∧
    ¬ persisted ((indexador_events ["ep1"]).take 1) "ep1" ∧
    1 < (indexador_events ["ep1"]).length := by decide

/-- C2 (amended): in the `createPhash.py` pipeline the checkpoint mark
of a unit is written only after that unit's fingerprints and metadata
writes, so at every interruption point an already-marked unit has both
persisted. -/
theorem C2_flush_before_mark (units : List String) (n : ℕ) (u : String)
    (h : marked ((createPhash_events units).take n) u) :
    persisted ((createPhash_events units).take n) u := by
  induction units generalizing n with
  | nil => simp [createPhash_events, marked] at h
  | cons v rest ih =>
    have hev : createPhash_events (v :: rest) =
        IngestEvent.persistFp v :: IngestEvent.persistMeta v ::
        IngestEvent.markDone v :: createPhash_events rest := rfl
    match n with
    | 0 => simp [marked] at h
    | 1 => rw [hev] at h; simp [marked, List.take] at h
    | 2 => rw [hev] at h; simp [marked, List.take] at h
    | (m + 3) =>
      rw [hev] at h ⊢
      simp only [List.take, marked, List.mem_cons] at h
      rcases h with h | h | h | h
      · exact absurd h (by simp)
      · exact absurd h (by simp)
      · have hu : u = v := by injection h
        subst hu
        exact ⟨List.mem_cons_self _ _,
          List.mem_cons_of_mem _ (List.mem_cons_self _ _)⟩
      · have hp := ih m h
        exact ⟨List.mem_cons_of_mem _ (List.mem_cons_of_mem _
            (List.mem_cons_of_mem _ hp.1)),
          List.mem_cons_of_mem _ (List.mem_cons_of_mem _
            (List.mem_cons_of_mem _ hp.2))⟩

/-- Concrete instantiation of `C2_flush_before_mark`. -/
theorem C2_flush_before_mark_witness :
    marked ((createPhash_events ["a"]).take 3) "a" ∧
    persisted ((createPhash_events ["a"]).take 3) "a" :=
  ⟨by decide, C2_flush_before_mark ["a"] 3 "a" (by decide)⟩

/-! ## C5: normalization pipelines of the two fingerprint encoders -/

/-- A normalization operation applied to a decoded frame before the
perceptual hash is computed. -/
inductive NormStep
  | resizeArea (w h : ℕ)
  | bgrToRgb
deriving DecidableEq, Repr

/-- Normalization sequence of the ingestion-time encoder
`compute_phash_vector` in `src/generate_data.py` lines 53-83 for a
frame of height h and width w: the frame is converted from BGR to RGB
and hashed; no resize is performed (`RESIZE_BEFORE_HASH = False`, and
the function body contains no resize). -/
def ingestion_norm_steps (h w : ℕ) : List NormStep := [NormStep.bgrToRgb]

/-- Normalization sequence of the query-time encoder
`compute_phash_vector` in `src/app/services/image_search_service.py`
lines 108-133 (identically `src/main.py` lines 116-141): when either
frame dimension exceeds 64 the frame is first resized to 64x64 with
`cv2.INTER_AREA`, then converted from BGR to RGB and hashed. -/
def query_norm_steps (h w : ℕ) : List NormStep :=
  (if 64 < h ∨ 64 < w then [NormStep.resizeArea 64 64] else []) ++
    [NormStep.bgrToRgb]

/-- C5: on any frame larger than 64x64 — e.g. a decoded 512x512 frame —
the query-time encoder applies a 64x64 area resize that the
ingestion-time encoder does not apply, so the two encoders do not share
the normalization pipeline the determinism contract (and the query
encoder's own comment) requires. -/
theorem C5_normalization_mismatch :
    query_norm_steps 512 512 ≠ ingestion_norm_steps 512 512 ∧
    query_norm_steps 512 512 = [NormStep.resizeArea 64 64, NormStep.bgrToRgb] ∧
    ingestion_norm_steps 512 512 = [NormStep.bgrToRgb] := by
  refine ⟨?_, rfl, rfl⟩
  decide

/-! ## C6: store loading (src/app/services/image_search_service.py,
src/main.py) -/

/-- Persisted store as seen by the loader: the hash values and declared
byte width of `database/phashes.npy`, and the key set of
`database/metadata.pkl`. -/
structure StoreState where
  values : List ℕ
  widthBytes : ℕ
  metaKeys : List ℤ
deriving DecidableEq, Repr

/-- Loader `load_data` of `src/app/services/image_search_service.py` lines
54-106 (identically the startup loader of `src/main.py` lines 204-250),
with both store files present: every loaded hash value is coerced to
uint64 and viewed as 8 bytes regardless of the stored byte width
(`np.array([hash_value], dtype=np.uint64).view(np.uint8)`), and
`add_with_ids` receives the metadata keys as ids; the library asserts
that the number of ids equals the number of vectors, and the loader
catches, logs and re-raises that failure. -/
def load_data (s : StoreState) : Except String (List ℕ × List ℤ) :=
  let binary_vectors := s.values.map (fun v => v % 2 ^ 64)
  if s.metaKeys.length ≠ binary_vectors.length then
    Except.error "not same nb of vectors as ids"
  else Except.ok (binary_vectors, s.metaKeys)

def loadOk (s : StoreState) : Bool :=
  match load_data s with
  | Except.ok _ => true
  | Except.error _ => false

/-- The `/search` endpoint guard of `src/main.py` lines 302-308: when
the index or metadata is not loaded the request fails with HTTP 500
instead of being served. -/
def serve_search (loaded : Option (List ℕ × List ℤ)) : Except ℕ Unit :=
  match loaded with
  | none => Except.error 500
  | some _ => Except.ok ()

/-- C6 counterexample: a store whose declared fingerprint byte width is
4 instead of the family width 8 loads successfully — the value is
silently widened to 64 bits — instead of failing as the claim
requires. -/
theorem C6_counterexample :
    (⟨[7], 4, [0]⟩ : StoreState).widthBytes ≠ 8 ∧
    loadOk ⟨[7], 4, [0]⟩ = true := by decide

/-- C6 (amended): when the fingerprint count and the metadata key set
diverge, loading fails (via the library's vectors/ids assertion, not a
dedicated StoreCorruptError) and an unloaded service refuses queries
with HTTP 500; a divergent fingerprint byte width, however, is silently
coerced and not detected. -/
theorem C6_count_divergence_fails (s : StoreState)
    (h : s.metaKeys.length ≠ s.values.length) :
    loadOk s = false ∧ serve_search none = Except.error 500 := by
  refine ⟨?_, rfl⟩
  unfold loadOk load_data
  rw [if_pos (by rw [List.length_map]; exact h)]

/-- Concrete instantiation of `C6_count_divergence_fails`. -/
theorem C6_count_divergence_fails_witness :
    ((⟨[7], 8, []⟩ : StoreState).metaKeys.length ≠
      (⟨[7], 8, []⟩ : StoreState).values.length) ∧
    loadOk ⟨[7], 8, []⟩ = false :=
  ⟨by decide, (C6_count_divergence_fails ⟨[7], 8, []⟩ (by decide)).1⟩

/-! ## C7: filename parsing and the per-unit failure policy -/

/-- Provenance extracted from a media unit's filename. -/
structure EpisodeMeta where
  anime : String
  season : ℤ
  episode : ℤ
deriving DecidableEq, Repr

/-- Parser `extract_metadata_from_filename` of `src/createPhash.py` lines 25-40
(identically `src/indexador.py` lines 25-40): the ordered patterns are
tried in turn and the first match wins; when no pattern matches, the
function falls back to `anime := filename, season := 0, episode := 0`
instead of failing.  The regular-expression engine is abstracted by the
list of per-pattern match outcomes for the given filename. -/
def extract_metadata_from_filename (pats : List (Option EpisodeMeta))
    (filename : String) : EpisodeMeta :=
  (pats.findSome? id).getD ⟨filename, 0, 0⟩

/-- Parser `parse_video_path` of `src/generate_data.py` lines 39-51: the first
matching pattern wins; no match raises ValueError, modelled as `none`. -/
def parse_video_path (pats : List (Option EpisodeMeta)) :
    Option EpisodeMeta :=
  pats.findSome? id

/-- Outcome of one unit in an ingestion run: processed (records emitted
under the given provenance and the unit's outputs written / the unit
marked done) or skipped with a diagnostic, no records and no mark. -/
inductive UnitOutcome
  | processed (meta : EpisodeMeta)
  | skipped
deriving DecidableEq, Repr

/-- Per-unit control flow of `process_video` in `src/generate_data.py`
lines 85-117: a ValueError from `parse_video_path` is caught, a
diagnostic logged and `(video_path, [], ...)` returned — no records and
no files written; otherwise the unit is processed under the parsed
provenance. -/
def generateData_handle_unit (pats : List (Option EpisodeMeta)) :
    UnitOutcome :=
  match parse_video_path pats with
  | none => UnitOutcome.skipped
  | some m => UnitOutcome.processed m

/-- Per-unit control flow of `main` in `src/createPhash.py` lines
159-181: `extract_metadata_from_filename` is total, so the unit is
always processed (and afterwards marked done) under the
possibly-fallback provenance. -/
def createPhash_handle_unit (pats : List (Option EpisodeMeta))
    (filename : String) : UnitOutcome :=
  UnitOutcome.processed (extract_metadata_from_filename pats filename)

theorem findSome_id_none {α : Type} (l : List (Option α))
    (h : ∀ m ∈ l, m = none) : l.findSome? id = none := by
  induction l with
  | nil => rfl
  | cons x xs ih =>
    have hx := h x (List.mem_cons_self _ _)
    subst hx
    simpa [List.findSome?] using ih (fun m hm => h m (List.mem_cons_of_mem _ hm))

/-- C7 counterexample: a unit whose filename matches none of the
patterns is not skipped by the `createPhash.py` pipeline: it is
processed — and later marked done — under the fallback provenance
`anime = filename, season = 0, episode = 0`. -/
theorem C7_counterexample :
    createPhash_handle_unit [none, none, none] "randomvideo" =
      UnitOutcome.processed ⟨"randomvideo", 0, 0⟩ ∧
    createPhash_handle_unit [none, none, none] "randomvideo" ≠
      UnitOutcome.skipped := by decide

/-- C7 (amended): in the `generate_data.py` pipeline a unit matching no
naming pattern is skipped with no records and no output files, and the
run continues: every other unit of the run is handled exactly as it
would be on its own. -/
theorem C7_generateData_skips (pats : List (Option EpisodeMeta))
    (h : ∀ m ∈ pats, m = none) :
    generateData_handle_unit pats = UnitOutcome.skipped ∧
    ∀ us : List (List (Option EpisodeMeta)),
      (us.map generateData_handle_unit).length = us.length := by
  refine ⟨?_, fun us => List.length_map us _⟩
  unfold generateData_handle_unit parse_video_path
  rw [findSome_id_none pats h]

/-- Concrete instantiation of `C7_generateData_skips` at the five
patterns of `src/generate_data.py`, none matching. -/
theorem C7_generateData_skips_witness :
    generateData_handle_unit [none, none, none, none, none] =
      UnitOutcome.skipped :=
  (C7_generateData_skips [none, none, none, none, none]
    (by intro m hm; simpa using hm)).1

/-! ## C8: frames sampled per media unit -/

/-- Position tag of a sampled frame within its second; `ending` models
the source tag "end". -/
inductive FramePos
  | start
  | middle
  | ending
deriving DecidableEq, Repr

/-- A sampled frame record: its second, position tag and frame number. -/
structure FrameRecord where
  second : ℕ
  pos : FramePos
  frameNumber : ℕ
deriving DecidableEq, Repr

/-- The seconds visited by the `while current_second < duration_seconds`
loop of `extract_frames_from_video` (src/app/services/frame_extractor.py
lines 52-61), starting at `cur`. -/
def loopSeconds (duration : ℚ) (cur : ℕ) : List ℕ :=
  if h : (cur : ℚ) < duration then
    cur :: loopSeconds duration (cur + 1)
  else []
termination_by (⌈duration⌉.toNat - cur)
decreasing_by
  have h2 : (cur : ℤ) < ⌈duration⌉ := Int.lt_ceil.mpr (by exact_mod_cast h)
  omega

/-- Sampler `_extract_3_frames_from_second` of src/app/services/frame_extractor.py
lines 92-145 with an integral frame rate: frame numbers
`int(second*fps)`, `int(second*fps + fps/2)`, `int((second+1)*fps) - 1`;
a record is produced for each position whose frame read succeeds. -/
def extract_3_frames_from_second (readOk : ℕ → Bool) (fps : ℕ) (sec : ℕ) :
    List FrameRecord :=
  ([(FramePos.start, sec * fps),
    (FramePos.middle, sec * fps + fps / 2),
    (FramePos.ending, (sec + 1) * fps - 1)]).filterMap
    (fun p => if readOk p.2 then some ⟨sec, p.1, p.2⟩ else none)

/-- Extractor `extract_frames_from_video` of src/app/services/frame_extractor.py
lines 26-90: `duration_seconds = total_frames / fps`, then 3 frames per
visited second. -/
def extract_frames_from_video (readOk : ℕ → Bool) (fps : ℕ)
    (total_frames : ℕ) : List FrameRecord :=
  (loopSeconds ((total_frames : ℚ) / (fps : ℚ)) 0).bind
    (extract_3_frames_from_second readOk fps)

/-- Round half to even (Python `round`) of the non-negative fraction
`num / den`, exactly: quotient `num / den` adjusted by the remainder,
ties resolved to the even neighbour. -/
def roundHalfEven (num den : ℕ) : ℕ :=
  if 2 * (num % den) < den then num / den
  else if den < 2 * (num % den) then num / den + 1
  else if num / den % 2 = 0 then num / den else num / den + 1

/-- Target lookup of `process_video` in src/generate_data.py lines
123-128, in hundredths of a second: the target map keys are
`round(sec + offset, 2)` for offsets 0.1 / 0.5 / 0.9 and
`sec < duration`, i.e. the hundredth values 100*sec+10, 100*sec+50 and
100*sec+90. -/
def targetAt (duration : ℕ) (t : ℕ) : Option (ℕ × FramePos) :=
  if t / 100 < duration then
    if t % 100 = 10 then some (t / 100, FramePos.start)
    else if t % 100 = 50 then some (t / 100, FramePos.middle)
    else if t % 100 = 90 then some (t / 100, FramePos.ending)
    else none
  else none

/-- Frame scan of `process_video` in src/generate_data.py lines 139-164:
`duration = int(total_frames / fps)`; every frame's timestamp
`frame_index / fps` is rounded to hundredths (Python `round`: half to
even, computed here exactly as `roundHalfEven (100 * frame_index) fps`)
and a `(second, position)` record is emitted whenever the rounded value
hits a target key. -/
def process_video_records (fps : ℕ) (total_frames : ℕ) :
    List (ℕ × FramePos) :=
  (List.range total_frames).filterMap
    (fun k => targetAt (total_frames / fps) (roundHalfEven (100 * k) fps))

/-- C8 counterexample: a 10-second unit at the common frame rate of 24
frames per second (240 frames) processed by `generate_data.py` yields
only 10 records — the `middle` position of each second — because no
frame timestamp rounds to the hundredth values 100*sec+10 or
100*sec+90 at that rate; not the 30 records the claim requires. -/
theorem C8_counterexample :
    process_video_records 24 240 =
      (List.range 10).map (fun s => (s, FramePos.middle)) ∧
    (process_video_records 24 240).length ≠ 30 := by decide

theorem loopSeconds_ten : loopSeconds 10 0 = [0, 1, 2, 3, 4, 5, 6, 7, 8, 9] := by
  have step : ∀ c : ℕ, (c : ℚ) < 10 →
      loopSeconds 10 c = c :: loopSeconds 10 (c + 1) := by
    intro c h
    rw [loopSeconds, dif_pos h]
  have stop : loopSeconds 10 10 = [] := by
    rw [loopSeconds, dif_neg (by norm_num)]
  rw [step 0 (by norm_num), step 1 (by norm_num), step 2 (by norm_num),
    step 3 (by norm_num), step 4 (by norm_num), step 5 (by norm_num),
    step 6 (by norm_num), step 7 (by norm_num), step 8 (by norm_num),
    step 9 (by norm_num), stop]

/-- C8 (amended): `FrameExtractorService` on a 10-second unit (every
sampled frame read succeeding) emits exactly 30 FrameRecords, one per
position tag start / middle / end for each of seconds 0 through 9;
`generate_data.py`'s rounded-timestamp matching emits fewer at frame
rates such as 24 fps. -/
theorem C8_thirty_records (readOk : ℕ → Bool) (fps : ℕ) (hfps : 0 < fps)
    (hread : ∀ n, readOk n = true) :
    (extract_frames_from_video readOk fps (10 * fps)).length = 30 ∧
    (extract_frames_from_video readOk fps (10 * fps)).map
        (fun r => (r.second, r.pos)) =
      (List.range 10).bind (fun s =>
        [(s, FramePos.start), (s, FramePos.middle), (s, FramePos.ending)]) := by
  have hdur : ((10 * fps : ℕ) : ℚ) / (fps : ℚ) = 10 := by
    have hq : (fps : ℚ) ≠ 0 := by
      exact_mod_cast Nat.pos_iff_ne_zero.mp hfps
    push_cast
    field_simp
  unfold extract_frames_from_video
  rw [hdur, loopSeconds_ten]
  constructor
  · simp [extract_3_frames_from_second, hread]
  · simp [extract_3_frames_from_second, hread, List.range_succ]

/-- Concrete instantiation of `C8_thirty_records` at 30 fps. -/
theorem C8_thirty_records_witness :
    0 < 30 ∧
    (extract_frames_from_video (fun _ => true) 30 (10 * 30)).length = 30 :=
  ⟨by decide,
   (C8_thirty_records (fun _ => true) 30 (by decide) (fun _ => rfl)).1⟩

end AniFind
